import Mathlib

/-!
Verification development for the "Backup Long-Open Tabs" browser extension.

The JavaScript sources are shallowly embedded as executable Lean functions:
  - the background script (`performBackup`, `handleAlarm`, `handleTabUpdate`,
    `scheduleAutomaticBackup`, `DEFAULT_SETTINGS`, `loadSettings`),
  - the dashboard page script (`loadTabLog`, `getSettings` and its own
    compiled-in defaults),
  - the options page script (`saveSettings`, `scheduleAutomaticBackup`).

Modelling conventions:
  - JavaScript objects used as keyed maps (`tabData`, `openTabsMap`) become
    association lists that preserve iteration order: assignment to an existing
    key replaces the value in place, assignment to a fresh key appends.
  - Timestamps are natural numbers (milliseconds).  Fields that JavaScript
    code tests for truthiness hold `0` (for numbers) or `""` (for strings) as
    the falsy sentinel covering both `undefined` and the falsy value itself;
    the embedded code only ever tests these fields for truthiness, never
    distinguishing `undefined` from `0`/`""`.
  - `settings.backupInterval` exists in no default-settings object and is
    never written by any source file, so it is `Option Int` with `none`
    playing `undefined`; arithmetic on it (`undefined * 1440 = NaN`) and
    comparisons against it (`undefined < 1` is `false`) are modelled on the
    `Option`.
  - Fractional day ages are computed in `ℚ`, mirroring the source's exact
    division `(now - createdAt) / (24*60*60*1000)`.
-/

/-- Lookup in an iteration-ordered association list (JavaScript object read). -/
def alFind {α β : Type} [DecidableEq α] : List (α × β) → α → Option β
  | [], _ => none
  | (k', v) :: rest, k => if k' = k then some v else alFind rest k

/-- Assignment in an iteration-ordered association list (JavaScript object
write): an existing key keeps its position and gets the new value, a fresh
key is appended at the end. -/
def alSet {α β : Type} [DecidableEq α] : List (α × β) → α → β → List (α × β)
  | [], k, v => [(k, v)]
  | (k', v') :: rest, k, v =>
    if k' = k then (k, v) :: rest else (k', v') :: alSet rest k v

/-- Keys of an association list, in iteration order. -/
def alKeys {α β : Type} (m : List (α × β)) : List α := m.map (·.1)

theorem alFind_alSet {α β : Type} [DecidableEq α]
    (m : List (α × β)) (k k' : α) (v : β) :
    alFind (alSet m k v) k' = if k = k' then some v else alFind m k' := by
  induction m with
  | nil => simp [alSet, alFind]
  | cons p rest ih =>
    obtain ⟨k₀, v₀⟩ := p
    by_cases h₀ : k₀ = k
    · subst h₀
      by_cases h₁ : k₀ = k'
      · subst h₁; simp [alSet, alFind]
      · have h₁' : ¬ k' = k₀ := fun h => h₁ h.symm
        simp [alSet, alFind, h₁, h₁']
    · by_cases h₁ : k₀ = k'
      · subst h₁
        have h₀' : ¬ k = k₀ := fun h => h₀ h.symm
        simp [alSet, alFind, h₀, h₀']
      · simp [alSet, alFind, h₀, h₁, ih]

theorem alFind_alSet_self {α β : Type} [DecidableEq α]
    (m : List (α × β)) (k : α) (v : β) :
    alFind (alSet m k v) k = some v := by
  simp [alFind_alSet]

theorem alFind_alSet_ne {α β : Type} [DecidableEq α]
    (m : List (α × β)) (k k' : α) (v : β) (h : k ≠ k') :
    alFind (alSet m k v) k' = alFind m k' := by
  simp [alFind_alSet, h]

theorem alFind_eq_none_iff {α β : Type} [DecidableEq α]
    (m : List (α × β)) (k : α) :
    alFind m k = none ↔ k ∉ alKeys m := by
  induction m with
  | nil => simp [alFind, alKeys]
  | cons p rest ih =>
    obtain ⟨k₀, v₀⟩ := p
    by_cases h₀ : k₀ = k
    · subst h₀; simp [alFind, alKeys]
    · have h₀' : ¬ k = k₀ := fun h => h₀ h.symm
      simp [alFind, alKeys, h₀, ih, h₀']

/-- Full settings record.  Mirrors the shape produced by merging any of the
three compiled-in `DEFAULT_SETTINGS` objects with a stored settings object. -/
structure Settings where
  minDays : ℚ
  maxTabs : Int
  autoBackupEnabled : Bool
  backupTime : String
  backupDays : List String
  toleranceHours : Int
  excludePrivate : Bool
  excludePinned : Bool
  maxTitleLength : Nat
  theme : String
  backupInterval : Option Int
deriving DecidableEq, Repr

/-- Stored (possibly partial) settings object: each key may be absent. -/
structure StoredSettings where
  minDays : Option ℚ := none
  maxTabs : Option Int := none
  autoBackupEnabled : Option Bool := none
  backupTime : Option String := none
  backupDays : Option (List String) := none
  toleranceHours : Option Int := none
  excludePrivate : Option Bool := none
  excludePinned : Option Bool := none
  maxTitleLength : Option Nat := none
  theme : Option String := none
  backupInterval : Option Int := none
deriving DecidableEq, Repr

/-- Spread-merge `{ ...defaults, ...stored }`: every key present in the stored
object overrides the default, absent keys fall back to the default. -/
def mergeSettings (d : Settings) (p : StoredSettings) : Settings where
  minDays := p.minDays.getD d.minDays
  maxTabs := p.maxTabs.getD d.maxTabs
  autoBackupEnabled := p.autoBackupEnabled.getD d.autoBackupEnabled
  backupTime := p.backupTime.getD d.backupTime
  backupDays := p.backupDays.getD d.backupDays
  toleranceHours := p.toleranceHours.getD d.toleranceHours
  excludePrivate := p.excludePrivate.getD d.excludePrivate
  excludePinned := p.excludePinned.getD d.excludePinned
  maxTitleLength := p.maxTitleLength.getD d.maxTitleLength
  theme := p.theme.getD d.theme
  backupInterval := match p.backupInterval with
    | some v => some v
    | none => d.backupInterval

/-- The background script's `DEFAULT_SETTINGS` constant (`minDays: 7`).
The options page script declares an identical constant. -/
def backgroundDefaultSettings : Settings where
  minDays := 7
  maxTabs := 1000
  autoBackupEnabled := false
  backupTime := "05:00"
  backupDays := ["Mon"]
  toleranceHours := 12
  excludePrivate := true
  excludePinned := false
  maxTitleLength := 100
  theme := "auto"
  backupInterval := none

/-- The dashboard page's local `DEFAULT_SETTINGS` inside `getSettings`
(`minDays: -1`, every other key as in the background constant). -/
def dashboardDefaultSettings : Settings where
  minDays := -1
  maxTabs := 1000
  autoBackupEnabled := false
  backupTime := "05:00"
  backupDays := ["Mon"]
  toleranceHours := 12
  excludePrivate := true
  excludePinned := false
  maxTitleLength := 100
  theme := "auto"
  backupInterval := none

/-- Dashboard page `getSettings`: reads the stored settings (possibly absent)
and returns `{ ...DEFAULT_SETTINGS, ...(result.settings || {}) }` with the
dashboard's own defaults. -/
def getSettingsDash (stored : Option StoredSettings) : Settings :=
  mergeSettings dashboardDefaultSettings (stored.getD {})

/-- Background script `loadSettings`: if a stored settings object exists, the
current settings become `{ ...DEFAULT_SETTINGS, ...result.settings }`;
otherwise the compiled-in defaults stay in force. -/
def loadSettingsBg (stored : Option StoredSettings) : Settings :=
  match stored with
  | some p => mergeSettings backgroundDefaultSettings p
  | none => backgroundDefaultSettings

/-- Persisted per-tab record stored in the `tabData` mapping.  The source
writes exactly these fields; `createdAt = 0` and `favIconUrl = ""` are the
falsy sentinels for fields the code tests with `!`/`||`. -/
structure TrackedTab where
  title : String
  url : String
  createdAt : Nat
  lastUpdated : Nat
  favIconUrl : String
deriving DecidableEq, Repr

/-- An open browser tab as delivered by the host's tab query.  `createdAt` is
`Option Nat` because the host does not actually supply such a property
(`handleTabUpdate` reads it anyway); `lastAccessed`/`lastModified` use `0` as
the falsy sentinel. -/
structure Tab where
  id : Nat
  url : String
  title : String
  incognito : Bool
  pinned : Bool
  favIconUrl : String
  createdAt : Option Nat := none
  lastAccessed : Nat := 0
  lastModified : Nat := 0
deriving DecidableEq, Repr

/-- The persisted `tabData` mapping, keyed by tab identifier. -/
abbrev TabMap := List (Nat × TrackedTab)

/-- Milliseconds in a day, the source's `24 * 60 * 60 * 1000`. -/
def msPerDay : ℚ := 86400000

/-- Character-list prefix test used to model `String.prototype.startsWith`
executably. -/
def charsPrefix : List Char → List Char → Bool
  | [], _ => true
  | _ :: _, [] => false
  | c :: cs, d :: ds => c == d && charsPrefix cs ds

/-- JavaScript `s.startsWith(p)`. -/
def jsStartsWith (s p : String) : Bool := charsPrefix p.data s.data

/-- URL admission test shared by the tracker, the reconciliation pass and the
dashboard: the URL is truthy and starts with an http or https scheme. -/
def isHttpUrl (u : String) : Bool :=
  u != "" && (jsStartsWith u "http://" || jsStartsWith u "https://")

/-- Exclusion predicate of `performBackup`'s loop body, in source order:
private tabs when excluded, pinned tabs when excluded, non-http(s) URLs. -/
def passesFilters (s : Settings) (t : Tab) : Bool :=
  !(s.excludePrivate && t.incognito) && !(s.excludePinned && t.pinned)
    && isHttpUrl t.url

/-- Minimum-age gate of `performBackup`: when `minDays >= 0` the creation
time is `tabData[tab.id]?.createdAt || tabData[tab.id]?.lastUpdated || now`
and the tab is skipped when its age in days is below `minDays`; when
`minDays < 0` (debug mode) the gate is off. -/
def skipByAge (s : Settings) (old : Option TrackedTab) (now : Nat) : Bool :=
  if 0 ≤ s.minDays then
    let createdAt : Nat :=
      match old with
      | some r =>
        if r.createdAt ≠ 0 then r.createdAt
        else if r.lastUpdated ≠ 0 then r.lastUpdated else now
      | none => now
    decide (((now : ℚ) - (createdAt : ℚ)) / msPerDay < s.minDays)
  else false

/-- Combined skip decision for one tab of the reconciliation loop. -/
def skipTab (s : Settings) (now : Nat) (m : TabMap) (t : Tab) : Bool :=
  !passesFilters s t || skipByAge s (alFind m t.id) now

/-- Title truncation used by both `handleTabUpdate` and `performBackup`:
`title.substring(0, maxTitleLength) + '...'` when the title is longer than
the configured maximum, the unchanged title otherwise. -/
def jsSubstring (s : String) (n : Nat) : String := ⟨s.data.take n⟩

def truncateTitle (maxLen : Nat) (title : String) : String :=
  if title.length > maxLen then jsSubstring title maxLen ++ "..." else title

/-- The record written by one upsert of `performBackup`.  With no existing
record, or an existing record whose `createdAt` is falsy, a fresh record is
created with `createdAt = now`; otherwise the existing record is spread and
`title`/`url`/`lastUpdated`/`favIconUrl` are refreshed. -/
def mkUpsertRecord (s : Settings) (now : Nat) (old : Option TrackedTab)
    (t : Tab) : TrackedTab :=
  let title := truncateTitle s.maxTitleLength t.title
  match old with
  | some r =>
    if r.createdAt ≠ 0 then
      { title := title
        url := t.url
        createdAt := r.createdAt
        lastUpdated := now
        favIconUrl :=
          if t.favIconUrl ≠ "" then t.favIconUrl
          else if r.favIconUrl ≠ "" then r.favIconUrl else "" }
    else
      { title := title
        url := t.url
        createdAt := now
        lastUpdated := now
        favIconUrl := if t.favIconUrl ≠ "" then t.favIconUrl else "" }
  | none =>
      { title := title
        url := t.url
        createdAt := now
        lastUpdated := now
        favIconUrl := if t.favIconUrl ≠ "" then t.favIconUrl else "" }

/-- The `for (const tab of tabs)` loop of `performBackup`: skip tabs failing
the filters or the age gate, otherwise upsert and count, breaking as soon as
the count reaches `maxTabs`. -/
def runBackup (s : Settings) (now : Nat) :
    List Tab → TabMap → Nat → TabMap × Nat
  | [], m, c => (m, c)
  | t :: rest, m, c =>
    if skipTab s now m t then runBackup s now rest m c
    else
      let m' := alSet m t.id (mkUpsertRecord s now (alFind m t.id) t)
      if s.maxTabs ≤ ((c + 1 : Nat) : Int) then (m', c + 1)
      else runBackup s now rest m' (c + 1)

/-- Reconciliation pass `performBackup`: processes the host's open-tab list
against the current `tabData` mapping and returns the new mapping together
with the reported backup count. -/
def performBackup (s : Settings) (now : Nat) (tabs : List Tab) (m : TabMap) :
    TabMap × Nat :=
  runBackup s now tabs m 0

/-- Several reconciliation passes in sequence, each with its own settings,
clock reading and open-tab list. -/
def performBackupPasses : List (Settings × Nat × List Tab) → TabMap → TabMap
  | [], m => m
  | p :: ps, m => performBackupPasses ps (performBackup p.1 p.2.1 p.2.2 m).1

/-- Tracker event handler `handleTabUpdate`: on a completed navigation to a
truthy http(s) URL of a non-excluded tab, the record keyed by the tab's
identifier is overwritten when the tab's age meets the minimum.  The handler
computes `now - tab.createdAt`; when the host supplies no `createdAt`
property the subtraction is `NaN` and the `>=` comparison is false, so no
record is written. -/
def handleTabUpdate (s : Settings) (now : Nat) (status : String) (t : Tab)
    (m : TabMap) : TabMap :=
  if status ≠ "complete" ∨ t.url = "" then m
  else if s.excludePrivate && t.incognito then m
  else if s.excludePinned && t.pinned then m
  else if !(jsStartsWith t.url "http://" || jsStartsWith t.url "https://") then m
  else
    match t.createdAt with
    | none => m
    | some cA =>
      if s.minDays ≤ ((now : ℚ) - (cA : ℚ)) / msPerDay then
        alSet m t.id
          { title := truncateTitle s.maxTitleLength t.title
            url := t.url
            createdAt := cA
            lastUpdated := now
            favIconUrl := "" }
      else m

/-- Mutable background-script state touched by the alarm handler. -/
structure BgState where
  tabData : TabMap
  lastAutomaticBackup : Option Nat
deriving DecidableEq, Repr

/-- JavaScript truthiness of the `lastAutomaticBackup` variable (`null`,
`undefined` and `0` are falsy). -/
def jsTruthyTime : Option Nat → Bool
  | none => false
  | some n => n != 0

/-- Alarm handler `handleAlarm`: for the `automaticBackup` alarm it first
checks that today's weekday is in the configured day set, then that the
tolerance window has elapsed since the last automatic backup, and only then
runs `performBackup` and records the fire time.  The returned flag tells
whether a reconciliation pass ran. -/
def handleAlarm (s : Settings) (alarmName today : String) (now : Nat)
    (tabs : List Tab) (st : BgState) : BgState × Bool :=
  if alarmName ≠ "automaticBackup" then (st, false)
  else if ¬ s.backupDays.contains today then (st, false)
  else
    let toleranceMs : Int := s.toleranceHours * 60 * 60 * 1000
    if jsTruthyTime st.lastAutomaticBackup
        ∧ ((now : Int) - (st.lastAutomaticBackup.getD 0 : Nat)) < toleranceMs
    then (st, false)
    else
      let m' := (performBackup s now tabs st.tabData).1
      ({ tabData := m', lastAutomaticBackup := some now }, true)

/-- Host alarm registration data: first fire time in milliseconds and the
recurrence period in minutes (`none` models the `NaN` produced by arithmetic
on an undefined setting). -/
structure AlarmInfo where
  whenMs : Nat
  periodInMinutes : Option Int
deriving DecidableEq, Repr

/-- Next-fire computation shared by both `scheduleAutomaticBackup` versions:
place the parsed backup time-of-day on today's date (seconds and
milliseconds zeroed) and roll to tomorrow when that instant is not after the
current instant.  The clock is modelled as a day index plus milliseconds
into the day. -/
def nextBackupTime (hours minutes day msOfDay : Nat) : Nat :=
  let todayAt := day * 86400000 + (hours * 60 + minutes) * 60000
  let nowAbs := day * 86400000 + msOfDay
  if todayAt ≤ nowAbs then todayAt + 86400000 else todayAt

/-- Background script `scheduleAutomaticBackup`: clears and recreates the
`automaticBackup` alarm with `periodInMinutes = backupInterval * 24 * 60`.
`hours`/`minutes` are the two numbers parsed from splitting
`settings.backupTime` on a colon.  Because `backupInterval` appears in no
default-settings object and is never saved, the multiplication is performed
on the `Option` (`none * _ = none`, the `NaN` case). -/
def scheduleAutomaticBackupBg (s : Settings) (hours minutes day msOfDay : Nat) :
    AlarmInfo where
  whenMs := nextBackupTime hours minutes day msOfDay
  periodInMinutes := s.backupInterval.map (fun b => b * (24 * 60))

/-- Options page `scheduleAutomaticBackup`: same next-fire computation, but
with the literal daily period `periodInMinutes = 24 * 60`. -/
def scheduleAutomaticBackupOpts (hours minutes day msOfDay : Nat) : AlarmInfo where
  whenMs := nextBackupTime hours minutes day msOfDay
  periodInMinutes := some (24 * 60)

/-- One row of the dashboard's merged tab view.  Presentation-only fields of
the source rows (domain, favicon, volatile identifier) carry no claim and are
omitted. -/
structure Row where
  url : String
  title : String
  logged : Bool
  ageInDays : Int
  createdAt : Nat
deriving DecidableEq, Repr

/-- One step of building the `openTabsMap` object of `loadTabLog`: tabs with
falsy or non-http(s) URLs are skipped, the rest are assigned under their URL
(a later tab with the same URL overwrites the entry's value). -/
def openInsert (mp : List (String × Tab)) (t : Tab) : List (String × Tab) :=
  if isHttpUrl t.url then alSet mp t.url t else mp

/-- The `openTabsMap` object of `loadTabLog`, keyed by URL. -/
def openTabsMapOf (openTabs : List Tab) : List (String × Tab) :=
  openTabs.foldl openInsert []

/-- The set of logged URLs built by `loadTabLog` (URLs of persisted records,
skipping falsy ones). -/
def loggedUrlsOf (loggedTabData : TabMap) : List String :=
  loggedTabData.filterMap
    (fun p => if p.2.url ≠ "" then some p.2.url else none)

/-- The dashboard row built for one `openTabsMap` entry: tagged logged when
the URL is in the logged-URL set, in which case the first persisted record
with that URL supplies the age and creation time. -/
def openRowOf (loggedTabData : TabMap) (now : Nat) (p : String × Tab) : Row :=
  let url := p.1
  let tab := p.2
  let isLogged := (loggedUrlsOf loggedTabData).contains url
  let loggedEntry : Option TrackedTab :=
    if isLogged then (loggedTabData.find? (fun q => q.2.url = url)).map (·.2)
    else none
  { url := tab.url
    title := tab.title
    logged := isLogged
    ageInDays :=
      match loggedEntry with
      | some e => Int.fdiv ((now : Int) - (e.createdAt : Nat)) 86400000
      | none => 0
    createdAt :=
      match loggedEntry with
      | some e => e.createdAt
      | none =>
        if tab.lastAccessed ≠ 0 then tab.lastAccessed
        else if tab.lastModified ≠ 0 then tab.lastModified else now }

/-- Phase one of the dashboard merge: one row per `openTabsMap` entry. -/
def dashOpenRows (loggedTabData : TabMap) (openTabs : List Tab) (now : Nat) :
    List Row :=
  (openTabsMapOf openTabs).map (openRowOf loggedTabData now)

/-- Phase two of the dashboard merge: one row per persisted record whose URL
is not a key of `openTabsMap`, always tagged logged. -/
def dashLoggedRows (loggedTabData : TabMap) (openTabs : List Tab) (now : Nat) :
    List Row :=
  loggedTabData.filterMap (fun q =>
    if (alFind (openTabsMapOf openTabs) q.2.url).isNone then
      some { url := q.2.url
             title := q.2.title
             logged := true
             ageInDays := Int.fdiv ((now : Int) - (q.2.createdAt : Nat)) 86400000
             createdAt := q.2.createdAt }
    else none)

/-- Dashboard merge `loadTabLog`: all open-tab rows followed by the rows of
persisted records whose URL is not currently open. -/
def loadTabLog (loggedTabData : TabMap) (openTabs : List Tab) (now : Nat) :
    List Row :=
  dashOpenRows loggedTabData openTabs now
    ++ dashLoggedRows loggedTabData openTabs now

/-- Raw values collected from the options form.  Numeric fields hold the
`parseInt` result (`none` for `NaN`); `parseInt(x) || DEFAULT` therefore
falls back to the default on both `NaN` and `0`. -/
structure FormValues where
  minDays : Option Int := none
  maxTabs : Option Int := none
  autoBackupEnabled : Bool := false
  backupTime : String := ""
  backupDays : List String := []
  toleranceHours : Option Int := none
  maxTitleLength : Option Int := none
  excludePrivate : Bool := false
  excludePinned : Bool := false
  theme : String := ""
deriving DecidableEq, Repr

/-- JavaScript `parseInt(x) || d`: the parsed number unless it is `NaN` or
`0`, in which case the default. -/
def jsNumOr (x : Option Int) (d : Int) : Int :=
  match x with
  | some v => if v = 0 then d else v
  | none => d

/-- The settings object assembled by `saveSettings` from the form (note that
it contains no `backupInterval` key). -/
def collectSettings (f : FormValues) : Settings where
  minDays := ((jsNumOr f.minDays 7 : Int) : ℚ)
  maxTabs := jsNumOr f.maxTabs 1000
  autoBackupEnabled := f.autoBackupEnabled
  backupTime := if f.backupTime ≠ "" then f.backupTime else "05:00"
  backupDays := f.backupDays
  toleranceHours := jsNumOr f.toleranceHours 12
  excludePrivate := f.excludePrivate
  excludePinned := f.excludePinned
  maxTitleLength := (jsNumOr f.maxTitleLength 100).toNat
  theme := if f.theme ≠ "" then f.theme else "auto"
  backupInterval := none

/-- JavaScript `x < b` when `x` may be `undefined`: any comparison with
`undefined` is false. -/
def undefinedLt (x : Option Int) (b : Int) : Bool :=
  match x with
  | some v => decide (v < b)
  | none => false

/-- JavaScript `x > b` when `x` may be `undefined`. -/
def undefinedGt (x : Option Int) (b : Int) : Bool :=
  match x with
  | some v => decide (b < v)
  | none => false

/-- Validation block of `saveSettings`, in source order, returning the first
error message thrown (the `backupInterval` checks compare `undefined` and
never fire). -/
def validateSettings (c : Settings) : Option String :=
  if c.minDays < 1 ∨ 365 < c.minDays then
    some "Minimum days must be between 1 and 365"
  else if c.maxTabs < 1 ∨ 1000 < c.maxTabs then
    some "Maximum tabs must be between 1 and 1000"
  else if undefinedLt c.backupInterval 1 ∨ undefinedGt c.backupInterval 30 then
    some "Backup interval must be between 1 and 30 days"
  else if c.toleranceHours < 1 ∨ 24 < c.toleranceHours then
    some "Tolerance hours must be between 1 and 24"
  else none

/-- Options page `saveSettings`: collect the form, validate, and only on
success write the collected object to storage.  A thrown validation error is
caught and surfaced as a message, leaving the persisted settings record
untouched.  The result is the persisted record after the call together with
the error message, if any. -/
def saveSettings (f : FormValues) (store : Option Settings) :
    Option Settings × Option String :=
  let c := collectSettings f
  match validateSettings c with
  | some msg => (store, some msg)
  | none => (some c, none)

/-- Age of a tab exactly as claim C1 words it: now minus the existing
record's creation time when a record exists, else zero, in days. -/
def claimAgeDays (old : Option TrackedTab) (now : Nat) : ℚ :=
  match old with
  | some r => ((now : ℚ) - (r.createdAt : ℚ)) / msPerDay
  | none => 0

/-- Tabs of a pass that survive both the exclusion filters and the age gate,
judged against a fixed `tabData` mapping. -/
def passersOf (s : Settings) (now : Nat) (m : TabMap) (tabs : List Tab) :
    List Tab :=
  tabs.filter (fun t => !(skipTab s now m t))

/-- Replay of the upserts of a pass: fold the per-tab record write over a
list of tabs, looking existing records up in the fixed mapping `m`. -/
def replayFrom (s : Settings) (now : Nat) (m start : TabMap)
    (ts : List Tab) : TabMap :=
  ts.foldl (fun mm t => alSet mm t.id (mkUpsertRecord s now (alFind m t.id) t))
    start

theorem skipTab_congr (s : Settings) (now : Nat) (m m' : TabMap) (t : Tab)
    (h : alFind m' t.id = alFind m t.id) :
    skipTab s now m' t = skipTab s now m t := by
  simp [skipTab, h]

theorem mem_id_unique {tabs : List Tab}
    (hpw : List.Pairwise (fun a b => a.id ≠ b.id) tabs) {t u : Tab}
    (ht : t ∈ tabs) (hu : u ∈ tabs) (h : u.id = t.id) : u = t := by
  induction tabs with
  | nil => cases ht
  | cons a rest ih =>
    rcases List.pairwise_cons.mp hpw with ⟨ha, hrest⟩
    rcases List.mem_cons.mp ht with rfl | ht'
    · rcases List.mem_cons.mp hu with rfl | hu'
      · rfl
      · exact absurd h.symm (ha u hu')
    · rcases List.mem_cons.mp hu with rfl | hu'
      · exact absurd h (ha t ht')
      · exact ih hrest ht' hu'

theorem replayFrom_find_not_mem (s : Settings) (now : Nat) (m : TabMap)
    (k : Nat) :
    ∀ (ts : List Tab) (start : TabMap), (∀ u ∈ ts, u.id ≠ k) →
      alFind (replayFrom s now m start ts) k = alFind start k := by
  intro ts
  induction ts with
  | nil => intro start _; simp [replayFrom]
  | cons u rest ih =>
    intro start h
    have h₁ : u.id ≠ k := h u (List.mem_cons_self _ _)
    have h₂ : ∀ w ∈ rest, w.id ≠ k := fun w hw => h w (List.mem_cons_of_mem _ hw)
    simp only [replayFrom, List.foldl_cons]
    rw [show (rest.foldl
        (fun mm t => alSet mm t.id (mkUpsertRecord s now (alFind m t.id) t))
        (alSet start u.id (mkUpsertRecord s now (alFind m u.id) u)))
      = replayFrom s now m
          (alSet start u.id (mkUpsertRecord s now (alFind m u.id) u)) rest
      from rfl]
    rw [ih _ h₂, alFind_alSet_ne _ _ _ _ h₁]

theorem replayFrom_find_mem (s : Settings) (now : Nat) (m : TabMap) :
    ∀ (ts : List Tab) (start : TabMap) (t : Tab),
      List.Pairwise (fun a b => a.id ≠ b.id) ts → t ∈ ts →
      alFind (replayFrom s now m start ts) t.id
        = some (mkUpsertRecord s now (alFind m t.id) t) := by
  intro ts
  induction ts with
  | nil => intro start t _ ht; cases ht
  | cons u rest ih =>
    intro start t hpw ht
    rcases List.pairwise_cons.mp hpw with ⟨hu, hrest⟩
    simp only [replayFrom, List.foldl_cons]
    rcases List.mem_cons.mp ht with rfl | ht'
    · rw [show (rest.foldl
          (fun mm t => alSet mm t.id (mkUpsertRecord s now (alFind m t.id) t))
          (alSet start t.id (mkUpsertRecord s now (alFind m t.id) t)))
        = replayFrom s now m
            (alSet start t.id (mkUpsertRecord s now (alFind m t.id) t)) rest
        from rfl]
      rw [replayFrom_find_not_mem s now m t.id rest _
        (fun w hw => Ne.symm (hu w hw)), alFind_alSet_self]
    · exact ih _ t hrest ht'

theorem runBackup_go (s : Settings) (now : Nat) (m : TabMap) (cap : Nat)
    (hcap : s.maxTabs = (cap : Int)) :
    ∀ (tabs : List Tab) (m' : TabMap) (c : Nat),
      c < cap →
      (∀ t ∈ tabs, alFind m' t.id = alFind m t.id) →
      List.Pairwise (fun a b => a.id ≠ b.id) tabs →
      runBackup s now tabs m' c =
        if cap ≤ c + (passersOf s now m tabs).length then
          (replayFrom s now m m' ((passersOf s now m tabs).take (cap - c)), cap)
        else
          (replayFrom s now m m' (passersOf s now m tabs),
            c + (passersOf s now m tabs).length) := by
  intro tabs
  induction tabs with
  | nil =>
    intro m' c hc _ _
    have hne : ¬ cap ≤ c := by omega
    simp [runBackup, passersOf, replayFrom, hne]
  | cons t rest ih =>
    intro m' c hc hinv hpw
    have hfind : alFind m' t.id = alFind m t.id := hinv t (List.mem_cons_self _ _)
    have hinv' : ∀ u ∈ rest, alFind m' u.id = alFind m u.id :=
      fun u hu => hinv u (List.mem_cons_of_mem _ hu)
    rcases List.pairwise_cons.mp hpw with ⟨hids, hpw'⟩
    by_cases hskip : skipTab s now m t = true
    · have hsk' : skipTab s now m' t = true := by
        rw [skipTab_congr s now m m' t hfind]; exact hskip
      have hstep : runBackup s now (t :: rest) m' c = runBackup s now rest m' c := by
        simp [runBackup, hsk']
      have hpassers : passersOf s now m (t :: rest) = passersOf s now m rest := by
        simp [passersOf, List.filter_cons, hskip]
      rw [hstep, hpassers, ih m' c hc hinv' hpw']
    · have hskipf : skipTab s now m t = false := by simpa using hskip
      have hsk' : skipTab s now m' t = false := by
        rw [skipTab_congr s now m m' t hfind]; exact hskipf
      have hpassers :
          passersOf s now m (t :: rest) = t :: passersOf s now m rest := by
        simp [passersOf, List.filter_cons, hskipf]
      have hrec : mkUpsertRecord s now (alFind m' t.id) t
          = mkUpsertRecord s now (alFind m t.id) t := by rw [hfind]
      by_cases hbr : s.maxTabs ≤ ((c + 1 : Nat) : Int)
      · have hcapc : cap = c + 1 := by
          rw [hcap] at hbr
          have h1 : cap ≤ c + 1 := by exact_mod_cast hbr
          omega
        have hbr' : s.maxTabs ≤ (c : Int) + 1 := by exact_mod_cast hbr
        have hstep : runBackup s now (t :: rest) m' c
            = (alSet m' t.id (mkUpsertRecord s now (alFind m t.id) t), c + 1) := by
          simp [runBackup, hsk', hrec, hbr']
        have h1 : cap ≤ c + (passersOf s now m (t :: rest)).length := by
          rw [hpassers]; simp; omega
        have h2 : cap - c = 1 := by omega
        rw [hstep, if_pos h1, hpassers, h2]
        simp [replayFrom, hcapc]
      · have hbrlt : c + 1 < cap := by
          rw [hcap] at hbr
          have h1 : ((c + 1 : Nat) : Int) < cap := lt_of_not_le hbr
          exact_mod_cast h1
        have hbr' : ¬ s.maxTabs ≤ (c : Int) + 1 := by
          intro h; exact hbr (by exact_mod_cast h)
        have hstep : runBackup s now (t :: rest) m' c
            = runBackup s now rest
                (alSet m' t.id (mkUpsertRecord s now (alFind m t.id) t))
                (c + 1) := by
          simp [runBackup, hsk', hrec, hbr']
        have hinv'' : ∀ u ∈ rest,
            alFind (alSet m' t.id (mkUpsertRecord s now (alFind m t.id) t)) u.id
              = alFind m u.id := by
          intro u hu
          rw [alFind_alSet_ne _ _ _ _ (hids u hu), hinv' u hu]
        rw [hstep, ih _ (c + 1) hbrlt hinv'' hpw', hpassers]
        by_cases hover : cap ≤ c + 1 + (passersOf s now m rest).length
        · rw [if_pos hover, if_pos (by simp; omega)]
          have h3 : cap - c = (cap - (c + 1)) + 1 := by omega
          rw [h3, List.take_succ_cons]
          simp [replayFrom]
        · rw [if_neg hover, if_neg (by simp; omega)]
          simp [replayFrom]
          omega

theorem msPerDay_pos : (0 : ℚ) < msPerDay := by norm_num [msPerDay]

theorem skipByAge_of_claimAge (s : Settings) (old : Option TrackedTab)
    (now : Nat) (h0 : 0 ≤ s.minDays)
    (hage : claimAgeDays old now < s.minDays) :
    skipByAge s old now = true := by
  unfold skipByAge
  rw [if_pos h0]
  cases old with
  | none =>
    simp only [claimAgeDays] at hage
    apply decide_eq_true
    rw [sub_self, zero_div]
    exact hage
  | some r =>
    simp only [claimAgeDays] at hage
    apply decide_eq_true
    rcases Nat.eq_zero_or_pos r.createdAt with h₁ | h₁
    · rw [h₁] at hage
      push_cast at hage
      rw [sub_zero] at hage
      have hle : ∀ cA : Nat, ((now : ℚ) - (cA : ℚ)) / msPerDay
          ≤ (now : ℚ) / msPerDay := by
        intro cA
        apply div_le_div_of_nonneg_right ?_ msPerDay_pos.le
        · have : (0 : ℚ) ≤ (cA : ℚ) := Nat.cast_nonneg _
          linarith
      have hne : ¬ r.createdAt ≠ 0 := by omega
      simp only [hne, if_false]
      split
      · exact lt_of_le_of_lt (hle _) hage
      · exact lt_of_le_of_lt (hle _) hage
    · have hne : r.createdAt ≠ 0 := by omega
      simp only [ne_eq, hne, not_false_eq_true, if_true]
      exact hage

theorem skipTab_of_age (s : Settings) (now : Nat) (m : TabMap) (t : Tab)
    (h : skipByAge s (alFind m t.id) now = true) :
    skipTab s now m t = true := by
  simp [skipTab, h]

theorem skipTab_neg_minDays (s : Settings) (now : Nat) (m : TabMap) (t : Tab)
    (hmin : s.minDays < 0) :
    skipTab s now m t = !passesFilters s t := by
  have h : skipByAge s (alFind m t.id) now = false := by
    unfold skipByAge
    rw [if_neg (not_le.mpr hmin)]
  simp [skipTab, h]

theorem runBackup_find_of_skip (s : Settings) (now : Nat) (m : TabMap)
    (k : Nat) :
    ∀ (tabs : List Tab) (m' : TabMap) (c : Nat),
      alFind m' k = alFind m k →
      (∀ u ∈ tabs, u.id = k → skipTab s now m u = true) →
      alFind (runBackup s now tabs m' c).1 k = alFind m k := by
  intro tabs
  induction tabs with
  | nil => intro m' c h _; simpa [runBackup] using h
  | cons t rest ih =>
    intro m' c hfk hsk
    have hsk' : ∀ u ∈ rest, u.id = k → skipTab s now m u = true :=
      fun u hu => hsk u (List.mem_cons_of_mem _ hu)
    by_cases hid : t.id = k
    · have hskt : skipTab s now m t = true := hsk t (List.mem_cons_self _ _) hid
      have hft : alFind m' t.id = alFind m t.id := by rw [hid]; exact hfk
      have h1 : skipTab s now m' t = true := by
        rw [skipTab_congr s now m m' t hft]; exact hskt
      simp only [runBackup, h1, if_true]
      exact ih m' c hfk hsk'
    · by_cases hskt : skipTab s now m' t = true
      · simp only [runBackup, hskt, if_true]
        exact ih m' c hfk hsk'
      · have hskf : skipTab s now m' t = false := by simpa using hskt
        have hpres : alFind
            (alSet m' t.id (mkUpsertRecord s now (alFind m' t.id) t)) k
              = alFind m k := by
          rw [alFind_alSet_ne _ _ _ _ hid, hfk]
        by_cases hbr : s.maxTabs ≤ ((c + 1 : Nat) : Int)
        · simp only [runBackup, hskf, if_false, Bool.false_eq_true, if_pos hbr]
          exact hpres
        · simp only [runBackup, hskf, if_false, Bool.false_eq_true, if_neg hbr]
          exact ih _ (c + 1) hpres hsk'

theorem runBackup_find_none (s : Settings) (now : Nat)
    (hmin : 0 < s.minDays) (k : Nat) :
    ∀ (tabs : List Tab) (m' : TabMap) (c : Nat),
      alFind m' k = none →
      alFind (runBackup s now tabs m' c).1 k = none := by
  intro tabs
  induction tabs with
  | nil => intro m' c h; simpa [runBackup] using h
  | cons t rest ih =>
    intro m' c hfk
    by_cases hid : t.id = k
    · have hb : skipByAge s (alFind m' t.id) now = true := by
        rw [hid, hfk]
        unfold skipByAge
        rw [if_pos hmin.le]
        apply decide_eq_true
        rw [sub_self, zero_div]
        exact hmin
      have h1 : skipTab s now m' t = true := by simp [skipTab, hb]
      simp only [runBackup, h1, if_true]
      exact ih m' c hfk
    · by_cases hskt : skipTab s now m' t = true
      · simp only [runBackup, hskt, if_true]
        exact ih m' c hfk
      · have hskf : skipTab s now m' t = false := by simpa using hskt
        have hpres : alFind
            (alSet m' t.id (mkUpsertRecord s now (alFind m' t.id) t)) k
              = none := by
          rw [alFind_alSet_ne _ _ _ _ hid]; exact hfk
        by_cases hbr : s.maxTabs ≤ ((c + 1 : Nat) : Int)
        · simp only [runBackup, hskf, if_false, Bool.false_eq_true, if_pos hbr]
          exact hpres
        · simp only [runBackup, hskf, if_false, Bool.false_eq_true, if_neg hbr]
          exact ih _ (c + 1) hpres

theorem mkUpsertRecord_createdAt_of_truthy (s : Settings) (now : Nat)
    (r : TrackedTab) (t : Tab) (h : r.createdAt ≠ 0) :
    (mkUpsertRecord s now (some r) t).createdAt = r.createdAt := by
  simp [mkUpsertRecord, h]

theorem runBackup_createdAt (s : Settings) (now : Nat) (k cA : Nat)
    (hcA : cA ≠ 0) :
    ∀ (tabs : List Tab) (m' : TabMap) (c : Nat),
      (∃ r', alFind m' k = some r' ∧ r'.createdAt = cA) →
      ∃ r'', alFind (runBackup s now tabs m' c).1 k = some r''
        ∧ r''.createdAt = cA := by
  intro tabs
  induction tabs with
  | nil => intro m' c h; simpa [runBackup] using h
  | cons t rest ih =>
    intro m' c hex
    by_cases hskt : skipTab s now m' t = true
    · simp only [runBackup, hskt, if_true]
      exact ih m' c hex
    · have hskf : skipTab s now m' t = false := by simpa using hskt
      have hstep : ∃ r'', alFind
          (alSet m' t.id (mkUpsertRecord s now (alFind m' t.id) t)) k
            = some r'' ∧ r''.createdAt = cA := by
        obtain ⟨r', hf, hca⟩ := hex
        by_cases hid : t.id = k
        · subst hid
          rw [hf]
          refine ⟨mkUpsertRecord s now (some r') t, alFind_alSet_self _ _ _, ?_⟩
          rw [mkUpsertRecord_createdAt_of_truthy s now r' t (hca ▸ hcA), hca]
        · rw [alFind_alSet_ne _ _ _ _ hid]
          exact ⟨r', hf, hca⟩
      by_cases hbr : s.maxTabs ≤ ((c + 1 : Nat) : Int)
      · simp only [runBackup, hskf, if_false, Bool.false_eq_true, if_pos hbr]
        exact hstep
      · simp only [runBackup, hskf, if_false, Bool.false_eq_true, if_neg hbr]
        exact ih _ (c + 1) hstep

/-- Settings with the debug minimum age (`minDays = -1`) and every other key
at the background defaults; used as concrete test input. -/
def debugSettings : Settings := { backgroundDefaultSettings with minDays := -1 }

/-- Debug settings with a tab cap of one; used as concrete test input. -/
def capOneSettings : Settings := { debugSettings with maxTabs := 1 }

/-- Concrete open tab used as test input. -/
def tabA : Tab :=
  { id := 1, url := "https://a.example/", title := "A",
    incognito := false, pinned := false, favIconUrl := "" }

/-- Second concrete open tab used as test input. -/
def tabB : Tab :=
  { id := 2, url := "https://b.example/", title := "B",
    incognito := false, pinned := false, favIconUrl := "" }

/-- Claim C1 (amended): in a reconciliation pass over tabs with pairwise
distinct identifiers, (a) with a non-negative configured minimum age, an open
tab whose claim-defined age (now minus the existing record's creation time if
a record exists, else zero) is strictly below the minimum leaves its
`tabData` entry untouched; (b) with a negative minimum, every tab passing the
URL/private/pinned exclusion predicate is upserted, provided the number of
passing tabs does not exceed the (positive) `maxTabs` cap. -/
theorem backup_minAge_gate (s : Settings) (now : Nat) (tabs : List Tab)
    (m : TabMap) (t : Tab) (cap : Nat)
    (hpw : List.Pairwise (fun a b => a.id ≠ b.id) tabs) (ht : t ∈ tabs) :
    (0 ≤ s.minDays → claimAgeDays (alFind m t.id) now < s.minDays →
      alFind (performBackup s now tabs m).1 t.id = alFind m t.id)
    ∧ (s.minDays < 0 → s.maxTabs = (cap : Int) → 0 < cap →
        (passersOf s now m tabs).length ≤ cap → passesFilters s t = true →
        alFind (performBackup s now tabs m).1 t.id
          = some (mkUpsertRecord s now (alFind m t.id) t)) := by
  constructor
  · intro h0 hage
    unfold performBackup
    apply runBackup_find_of_skip s now m t.id tabs m 0 rfl
    intro u hu hid
    have hut : u = t := mem_id_unique hpw ht hu hid
    subst hut
    exact skipTab_of_age s now m u (skipByAge_of_claimAge s _ now h0 hage)
  · intro hneg hcap hpos hlen hpass
    unfold performBackup
    rw [runBackup_go s now m cap hcap tabs m 0 hpos (fun u _ => rfl) hpw]
    have htp : t ∈ passersOf s now m tabs := by
      rw [passersOf, List.mem_filter]
      refine ⟨ht, ?_⟩
      rw [skipTab_neg_minDays s now m t hneg, hpass]
      rfl
    have hpwp : List.Pairwise (fun a b : Tab => a.id ≠ b.id)
        (passersOf s now m tabs) :=
      List.Pairwise.sublist (List.filter_sublist _) hpw
    by_cases hc : cap ≤ 0 + (passersOf s now m tabs).length
    · rw [if_pos hc]
      have hlen' : (passersOf s now m tabs).length = cap := by omega
      rw [Nat.sub_zero, ← hlen', List.take_length]
      exact replayFrom_find_mem s now m _ m t hpwp htp
    · rw [if_neg hc]
      exact replayFrom_find_mem s now m _ m t hpwp htp

/-- Witness for C1: at debug settings, the second of two distinct open tabs
really is upserted with the record the amended claim predicts. -/
theorem backup_minAge_gate_witness :
    alFind (performBackup debugSettings 100 [tabA, tabB] []).1 tabB.id
      = some (mkUpsertRecord debugSettings 100 (alFind ([] : TabMap) tabB.id)
          tabB) :=
  (backup_minAge_gate debugSettings 100 [tabA, tabB] [] tabB 1000
    (by decide) (by decide)).2 (by decide) (by decide) (by decide)
    (by decide) (by decide)

/-- Counterexample for C1 as stated: with a negative minimum age and a cap of
one, `tabB` passes the exclusion predicate yet is not upserted (the pass
stops after `tabA`), so "every tab passing the exclusion predicate is
upserted regardless of age" fails. -/
theorem backup_minAge_counterexample :
    capOneSettings.minDays < 0
    ∧ passesFilters capOneSettings tabB = true
    ∧ alFind (performBackup capOneSettings 100 [tabA, tabB] []).1 tabB.id
        = none := by
  exact ⟨by decide, by decide, by decide⟩

/-- Claim C2 (amended): a record whose `createdAt` is present (truthy) keeps
that `createdAt` across arbitrarily many reconciliation passes; since a
record consists exactly of `title`, `url`, `createdAt`, `lastUpdated` and
`favIconUrl`, only the title, URL, last-updated and favicon fields of the
record can change. -/
theorem backup_preserves_createdAt
    (passes : List (Settings × Nat × List Tab)) (m : TabMap) (k : Nat)
    (r : TrackedTab) (hf : alFind m k = some r) (hcA : r.createdAt ≠ 0) :
    ∃ r', alFind (performBackupPasses passes m) k = some r'
      ∧ r'.createdAt = r.createdAt := by
  induction passes generalizing m r with
  | nil => exact ⟨r, by simpa [performBackupPasses] using hf, rfl⟩
  | cons p ps ih =>
    obtain ⟨r₁, hf₁, hc₁⟩ := runBackup_createdAt p.1 p.2.1 k r.createdAt hcA
      p.2.2 m 0 ⟨r, hf, rfl⟩
    have hcA₁ : r₁.createdAt ≠ 0 := by rw [hc₁]; exact hcA
    obtain ⟨r₂, hf₂, hc₂⟩ := ih (performBackup p.1 p.2.1 p.2.2 m).1 r₁ hf₁ hcA₁
    exact ⟨r₂, by simpa [performBackupPasses] using hf₂, by rw [hc₂, hc₁]⟩

/-- Witness for C2: a concrete record with `createdAt = 5` keeps it through
two concrete passes. -/
theorem backup_preserves_createdAt_witness :
    ∃ r', alFind (performBackupPasses
        [(debugSettings, 100, [tabA]), (debugSettings, 200, [tabA])]
        [(1, { title := "Old", url := "https://a.example/", createdAt := 5,
               lastUpdated := 5, favIconUrl := "" })]) 1 = some r'
      ∧ r'.createdAt = 5 :=
  backup_preserves_createdAt _ _ 1
    { title := "Old", url := "https://a.example/", createdAt := 5,
      lastUpdated := 5, favIconUrl := "" } rfl (by decide)

/-- Counterexample for C2 as stated: an upsert can change the `url` field of
an existing record (the tab navigated under the same identifier), so "only
the lastUpdated, title, and favicon fields change" fails. -/
theorem backup_url_change_counterexample :
    (alFind (performBackup debugSettings 100
        [{ id := 1, url := "https://new.example/", title := "Old",
           incognito := false, pinned := false, favIconUrl := "" }]
        [(1, { title := "Old", url := "https://old.example/", createdAt := 5,
               lastUpdated := 5, favIconUrl := "" })]).1 1).map (·.url)
      = some "https://new.example/"
    ∧ (alFind
        [(1, ({ title := "Old", url := "https://old.example/", createdAt := 5,
                lastUpdated := 5, favIconUrl := "" } : TrackedTab))] 1).map
          (·.url)
      = some "https://old.example/"
    ∧ ("https://new.example/" : String) ≠ "https://old.example/" := by
  exact ⟨by decide, by decide, by decide⟩

/-- Claim C3: when the tabs of a pass have pairwise distinct identifiers and
strictly more of them satisfy the upsert predicate (exclusion filters plus
age gate against the pass's initial mapping) than the positive `maxTabs`
cap, the pass performs exactly the first `maxTabs` upserts, leaves every
later tab unprocessed, and returns `maxTabs` as the count. -/
theorem backup_cap_exact (s : Settings) (now : Nat) (tabs : List Tab)
    (m : TabMap) (cap : Nat)
    (hpw : List.Pairwise (fun a b => a.id ≠ b.id) tabs)
    (hcap : s.maxTabs = (cap : Int)) (hpos : 0 < cap)
    (hover : cap < (passersOf s now m tabs).length) :
    performBackup s now tabs m
      = (replayFrom s now m m ((passersOf s now m tabs).take cap), cap) := by
  unfold performBackup
  rw [runBackup_go s now m cap hcap tabs m 0 hpos (fun t _ => rfl) hpw]
  rw [if_pos (by omega)]
  simp

/-- Witness for C3: with a cap of one and two qualifying tabs, the pass
upserts exactly the first passer and reports count one. -/
theorem backup_cap_exact_witness :
    (1 : Nat) < (passersOf capOneSettings 100 [] [tabA, tabB]).length
    ∧ performBackup capOneSettings 100 [tabA, tabB] []
      = (replayFrom capOneSettings 100 [] []
          ((passersOf capOneSettings 100 [] [tabA, tabB]).take 1), 1) :=
  ⟨by decide, backup_cap_exact capOneSettings 100 [tabA, tabB] [] 1
    (by decide) (by decide) (by decide) (by decide)⟩

/-- Claim C5: evaluation of both `scheduleAutomaticBackup` versions on the
default settings.  The options page version registers the daily period
`24 * 60` minutes; the background version computes
`backupInterval * 24 * 60` with `backupInterval` undefined, i.e. `NaN`
(modelled `none`), so its alarm is not daily-recurring.  The first fire time
does combine the configured time-of-day with today's date and rolls to
tomorrow when already past. -/
theorem schedule_period_divergence :
    (scheduleAutomaticBackupBg backgroundDefaultSettings 5 0 100
        (6 * 3600000)).periodInMinutes = none
    ∧ (scheduleAutomaticBackupOpts 5 0 100 (6 * 3600000)).periodInMinutes
        = some (24 * 60)
    ∧ (scheduleAutomaticBackupBg backgroundDefaultSettings 5 0 100
        (6 * 3600000)).whenMs = 101 * 86400000 + 5 * 3600000
    ∧ (scheduleAutomaticBackupBg backgroundDefaultSettings 5 0 100
        (4 * 3600000)).whenMs = 100 * 86400000 + 5 * 3600000 := by
  exact ⟨rfl, rfl, by decide, by decide⟩

/-- Claim C6: an `automaticBackup` alarm firing less than the tolerance
window after a recorded (truthy) last automatic backup time is a no-op: no
reconciliation pass runs and neither `tabData` nor `lastAutomaticBackup`
changes. -/
theorem alarm_tolerance_noop (s : Settings) (alarmName today : String)
    (now : Nat) (tabs : List Tab) (st : BgState) (t : Nat)
    (hlast : st.lastAutomaticBackup = some t) (ht : 0 < t)
    (htol : (now : Int) - t < s.toleranceHours * 60 * 60 * 1000) :
    handleAlarm s alarmName today now tabs st = (st, false) := by
  unfold handleAlarm
  by_cases hn : alarmName ≠ "automaticBackup"
  · rw [if_pos hn]
  · rw [if_neg hn]
    by_cases hd : ¬ s.backupDays.contains today
    · rw [if_pos hd]
    · rw [if_neg hd]
      have hguard : jsTruthyTime st.lastAutomaticBackup = true ∧
          ((now : Int) - (st.lastAutomaticBackup.getD 0 : Nat))
            < s.toleranceHours * 60 * 60 * 1000 := by
        constructor
        · rw [hlast]
          simp only [jsTruthyTime, bne_iff_ne, ne_eq]
          omega
        · rw [hlast]
          exact htol
      rw [if_pos hguard]

/-- Witness for C6: a concrete second fire one second after a recorded
backup, far inside the default twelve-hour tolerance, changes nothing. -/
theorem alarm_tolerance_noop_witness :
    handleAlarm backgroundDefaultSettings "automaticBackup" "Mon" 2000 [tabA]
        { tabData := [], lastAutomaticBackup := some 1000 }
      = ({ tabData := [], lastAutomaticBackup := some 1000 }, false) :=
  alarm_tolerance_noop backgroundDefaultSettings "automaticBackup" "Mon" 2000
    [tabA] { tabData := [], lastAutomaticBackup := some 1000 } 1000 rfl
    (by decide) (by decide)

/-- Claim C9: a reconciliation pass with a strictly positive configured
minimum age never creates a record for an open tab that has none (its age is
treated as zero and it is skipped), so such a pass never extends the key set
of the `tabData` mapping. -/
theorem backup_no_new_records (s : Settings) (now : Nat) (tabs : List Tab)
    (m : TabMap) (k : Nat) (hmin : 0 < s.minDays)
    (hk : alFind m k = none) :
    alFind (performBackup s now tabs m).1 k = none := by
  unfold performBackup
  exact runBackup_find_none s now hmin k tabs m 0 hk

/-- Witness for C9: with the default seven-day minimum, a pass over a fresh
qualifying tab writes no record for it. -/
theorem backup_no_new_records_witness :
    (0 : ℚ) < backgroundDefaultSettings.minDays
    ∧ alFind (performBackup backgroundDefaultSettings 1000 [tabA] []).1
        tabA.id = none :=
  ⟨by decide,
    backup_no_new_records backgroundDefaultSettings 1000 [tabA] [] tabA.id
      (by decide) rfl⟩

/-- Length of a truncated-and-marked title: cutting to `n` characters of a
longer title and appending the three-character marker gives `n + 3`. -/
theorem length_jsSubstring_marker (ttl : String) (n : Nat)
    (h : n ≤ ttl.length) : (jsSubstring ttl n ++ "...").length = n + 3 := by
  cases ttl with
  | mk data =>
    show ((⟨data.take n⟩ : String) ++ "...").length = n + 3
    rw [String.length_append]
    have h1 : (⟨data.take n⟩ : String).length = n := by
      show (data.take n).length = n
      rw [List.length_take]
      exact Nat.min_eq_left (by simpa [String.length] using h)
    rw [h1]
    rfl

/-- Settings with a two-character title limit; used as concrete test input. -/
def tinyTitleSettings : Settings :=
  { backgroundDefaultSettings with minDays := -1, maxTitleLength := 2 }

/-- Concrete open tab with a four-character title; used as test input. -/
def longTitleTab : Tab :=
  { id := 3, url := "https://t.example/", title := "abcd",
    incognito := false, pinned := false, favIconUrl := "" }

/-- Claim C7 (amended): both the reconciliation upsert and the tracker store
`truncateTitle maxTitleLength title`; a title longer than the configured
maximum is cut to the maximum and the three-character marker is appended, so
the stored title has length exactly `maxTitleLength + 3` (it exceeds the
configured maximum by the marker); titles at or under the limit are stored
unchanged. -/
theorem title_truncation_bound (s : Settings) (now : Nat)
    (old : Option TrackedTab) (t : Tab) (status : String) (m : TabMap) :
    (mkUpsertRecord s now old t).title = truncateTitle s.maxTitleLength t.title
    ∧ (∀ r, alFind (handleTabUpdate s now status t m) t.id = some r →
        alFind m t.id = some r ∨ r.title = truncateTitle s.maxTitleLength t.title)
    ∧ (t.title.length > s.maxTitleLength →
        truncateTitle s.maxTitleLength t.title
          = jsSubstring t.title s.maxTitleLength ++ "..."
        ∧ (truncateTitle s.maxTitleLength t.title).length
            = s.maxTitleLength + 3)
    ∧ (t.title.length ≤ s.maxTitleLength →
        truncateTitle s.maxTitleLength t.title = t.title) := by
  refine ⟨?_, ?_, ?_, ?_⟩
  · cases old with
    | none => rfl
    | some r =>
      by_cases h : r.createdAt ≠ 0 <;> simp [mkUpsertRecord, h]
  · intro r hr
    unfold handleTabUpdate at hr
    split at hr
    · exact Or.inl hr
    · split at hr
      · exact Or.inl hr
      · split at hr
        · exact Or.inl hr
        · split at hr
          · exact Or.inl hr
          · split at hr
            · exact Or.inl hr
            · split at hr
              · rw [alFind_alSet_self] at hr
                injection hr with h
                exact Or.inr (by rw [← h])
              · exact Or.inl hr
  · intro h
    rw [truncateTitle, if_pos h]
    exact ⟨rfl, length_jsSubstring_marker t.title s.maxTitleLength h.le⟩
  · intro h
    rw [truncateTitle, if_neg (by omega)]

/-- Witness for C7: at a two-character limit a four-character title is stored
as the two-character cut plus the marker, of length five. -/
theorem title_truncation_bound_witness :
    longTitleTab.title.length > tinyTitleSettings.maxTitleLength
    ∧ truncateTitle tinyTitleSettings.maxTitleLength longTitleTab.title
        = jsSubstring longTitleTab.title tinyTitleSettings.maxTitleLength
          ++ "..."
    ∧ (truncateTitle tinyTitleSettings.maxTitleLength
        longTitleTab.title).length = tinyTitleSettings.maxTitleLength + 3 :=
  ⟨by decide,
    ((title_truncation_bound tinyTitleSettings 0 none longTitleTab "complete"
      []).2.2.1 (by decide)).1,
    ((title_truncation_bound tinyTitleSettings 0 none longTitleTab "complete"
      []).2.2.1 (by decide)).2⟩

/-- Counterexample for C7 as stated: with `maxTitleLength = 2` a pass stores
the title `"ab..."` of length five, which exceeds the configured maximum, so
"the stored title does not exceed the configured maximum length" fails. -/
theorem title_truncation_counterexample :
    (alFind (performBackup tinyTitleSettings 100 [longTitleTab] []).1
        longTitleTab.id).map (·.title) = some "ab..."
    ∧ ¬ (("ab..." : String).length ≤ tinyTitleSettings.maxTitleLength) := by
  exact ⟨by decide, by decide⟩

/-- Form values whose collected `minDays` is 400, outside the legal range;
used as concrete test input. -/
def badFormValues : FormValues := { minDays := some 400 }

/-- Claim C8: a settings submission whose collected `minDays` (or `maxTabs`,
or `toleranceHours`) falls outside its legal range makes `saveSettings`
raise a validation error before any storage write, so the persisted settings
record is unchanged and an error message is surfaced. -/
theorem saveSettings_validation_atomic (f : FormValues)
    (store : Option Settings)
    (h : ((collectSettings f).minDays < 1 ∨ 365 < (collectSettings f).minDays)
      ∨ ((collectSettings f).maxTabs < 1 ∨ 1000 < (collectSettings f).maxTabs)
      ∨ ((collectSettings f).toleranceHours < 1
          ∨ 24 < (collectSettings f).toleranceHours)) :
    (saveSettings f store).1 = store ∧ (saveSettings f store).2.isSome := by
  have hval : (validateSettings (collectSettings f)).isSome := by
    unfold validateSettings
    split_ifs with h1 h2 h3 h4
    · rfl
    · rfl
    · rfl
    · rfl
    · exact absurd h (by tauto)
  rcases hopt : validateSettings (collectSettings f) with _ | msg
  · rw [hopt] at hval; simp at hval
  · constructor <;> simp [saveSettings, hopt]

/-- Witness for C8: submitting `minDays = 400` over stored default settings
leaves the store unchanged and yields an error message. -/
theorem saveSettings_validation_atomic_witness :
    ((collectSettings badFormValues).minDays < 1
      ∨ 365 < (collectSettings badFormValues).minDays)
    ∧ (saveSettings badFormValues (some backgroundDefaultSettings)).1
        = some backgroundDefaultSettings
    ∧ (saveSettings badFormValues (some backgroundDefaultSettings)).2.isSome :=
  ⟨Or.inr (by decide),
    (saveSettings_validation_atomic badFormValues
      (some backgroundDefaultSettings) (Or.inl (Or.inr (by decide)))).1,
    (saveSettings_validation_atomic badFormValues
      (some backgroundDefaultSettings) (Or.inl (Or.inr (by decide)))).2⟩

/-- Claim C10 (amended): for every stored settings object, the dashboard's
`getSettings` merge and the background's `loadSettings` merge agree on every
key except `minDays` (their compiled-in defaults differ exactly there: -1 in
the dashboard, 7 in the background); whenever the stored object defines
`minDays`, the two merged records are equal. -/
theorem settings_merge_agree_except_minDays (stored : Option StoredSettings) :
    { getSettingsDash stored with minDays := 0 }
      = { loadSettingsBg stored with minDays := 0 }
    ∧ (∀ q : ℚ, (stored.getD {}).minDays = some q →
        getSettingsDash stored = loadSettingsBg stored) := by
  constructor
  · cases stored with
    | none => rfl
    | some p =>
      simp [getSettingsDash, loadSettingsBg, mergeSettings,
        dashboardDefaultSettings, backgroundDefaultSettings]
  · intro q hq
    cases stored with
    | none => exfalso; simp at hq
    | some p =>
      simp only [Option.getD] at hq
      simp [getSettingsDash, loadSettingsBg, mergeSettings,
        dashboardDefaultSettings, backgroundDefaultSettings, hq]

/-- Witness for C10: a stored object defining `minDays = 3` yields identical
merged records in both contexts. -/
theorem settings_merge_agree_witness :
    getSettingsDash (some { minDays := some 3 })
      = loadSettingsBg (some { minDays := some 3 }) :=
  (settings_merge_agree_except_minDays (some { minDays := some 3 })).2 3 rfl

/-- Counterexample for C10 as stated: with no stored settings the dashboard
merge has `minDays = -1` while the background merge has `minDays = 7`, so the
two merged records differ. -/
theorem settings_defaults_counterexample :
    (getSettingsDash none).minDays = -1
    ∧ (loadSettingsBg none).minDays = 7
    ∧ getSettingsDash none ≠ loadSettingsBg none := by
  exact ⟨by decide, by decide, by decide⟩

theorem mem_alSet_cases {α β : Type} [DecidableEq α]
    (m : List (α × β)) (k : α) (v : β) (p : α × β)
    (hp : p ∈ alSet m k v) : p ∈ m ∨ p = (k, v) := by
  induction m with
  | nil => simpa [alSet] using hp
  | cons q rest ih =>
    obtain ⟨k₀, v₀⟩ := q
    by_cases h₀ : k₀ = k
    · subst h₀
      simp only [alSet, if_pos rfl] at hp
      rcases List.mem_cons.mp hp with rfl | hp'
      · exact Or.inr rfl
      · exact Or.inl (List.mem_cons_of_mem _ hp')
    · simp only [alSet, if_neg h₀] at hp
      rcases List.mem_cons.mp hp with rfl | hp'
      · exact Or.inl (List.mem_cons_self _ _)
      · rcases ih hp' with h | h
        · exact Or.inl (List.mem_cons_of_mem _ h)
        · exact Or.inr h

theorem alKeys_alSet {α β : Type} [DecidableEq α]
    (m : List (α × β)) (k : α) (v : β) :
    alKeys (alSet m k v)
      = if k ∈ alKeys m then alKeys m else alKeys m ++ [k] := by
  induction m with
  | nil => simp [alSet, alKeys]
  | cons q rest ih =>
    obtain ⟨k₀, v₀⟩ := q
    by_cases h₀ : k₀ = k
    · subst h₀
      have hmem : k₀ ∈ alKeys ((k₀, v₀) :: rest) := by simp [alKeys]
      rw [if_pos hmem]
      simp [alSet, alKeys]
    · have hkey : alKeys ((k₀, v₀) :: rest) = k₀ :: alKeys rest := rfl
      have hset : alSet ((k₀, v₀) :: rest) k v = (k₀, v₀) :: alSet rest k v := by
        simp [alSet, h₀]
      have hcons : alKeys ((k₀, v₀) :: alSet rest k v)
          = k₀ :: alKeys (alSet rest k v) := rfl
      by_cases hmem : k ∈ alKeys rest
      · have hmem' : k ∈ alKeys ((k₀, v₀) :: rest) := by
          rw [hkey]; exact List.mem_cons_of_mem _ hmem
        rw [if_pos hmem', hset, hcons, ih, if_pos hmem, hkey]
      · have hmem' : k ∉ alKeys ((k₀, v₀) :: rest) := by
          rw [hkey]
          intro h
          rcases List.mem_cons.mp h with h | h
          · exact h₀ h.symm
          · exact hmem h
        rw [if_neg hmem', hset, hcons, ih, if_neg hmem, hkey]
        rfl

theorem mem_alKeys_alSet_of_mem {α β : Type} [DecidableEq α]
    (m : List (α × β)) (k k' : α) (v : β) (h : k' ∈ alKeys m) :
    k' ∈ alKeys (alSet m k v) := by
  rw [alKeys_alSet]
  split
  · exact h
  · exact List.mem_append_left _ h

theorem mem_alKeys_alSet_self {α β : Type} [DecidableEq α]
    (m : List (α × β)) (k : α) (v : β) :
    k ∈ alKeys (alSet m k v) := by
  rw [alKeys_alSet]
  split
  · assumption
  · exact List.mem_append_right _ (List.mem_singleton.mpr rfl)

theorem alKeys_alSet_nodup {α β : Type} [DecidableEq α]
    (m : List (α × β)) (k : α) (v : β) (h : (alKeys m).Nodup) :
    (alKeys (alSet m k v)).Nodup := by
  rw [alKeys_alSet]
  split
  · exact h
  · simp only [List.nodup_append, List.nodup_singleton]
    exact ⟨h, True.intro, by simpa using (by assumption : k ∉ alKeys m)⟩

theorem mem_alKeys_fold_of_mem (tabs : List Tab) :
    ∀ (mp : List (String × Tab)) (k : String), k ∈ alKeys mp →
      k ∈ alKeys (tabs.foldl openInsert mp) := by
  induction tabs with
  | nil => intro mp k h; simpa using h
  | cons u rest ih =>
    intro mp k h
    simp only [List.foldl_cons]
    apply ih
    unfold openInsert
    split
    · exact mem_alKeys_alSet_of_mem _ _ _ _ h
    · exact h

theorem mem_alKeys_fold_intro (tabs : List Tab) :
    ∀ (mp : List (String × Tab)) (t : Tab), t ∈ tabs →
      isHttpUrl t.url = true →
      t.url ∈ alKeys (tabs.foldl openInsert mp) := by
  induction tabs with
  | nil => intro mp t h; cases h
  | cons u rest ih =>
    intro mp t ht hurl
    simp only [List.foldl_cons]
    rcases List.mem_cons.mp ht with rfl | ht'
    · apply mem_alKeys_fold_of_mem
      unfold openInsert
      rw [if_pos hurl]
      exact mem_alKeys_alSet_self _ _ _
    · exact ih _ t ht' hurl

theorem fold_keys_nodup (tabs : List Tab) :
    ∀ (mp : List (String × Tab)), (alKeys mp).Nodup →
      (alKeys (tabs.foldl openInsert mp)).Nodup := by
  induction tabs with
  | nil => intro mp h; simpa using h
  | cons u rest ih =>
    intro mp h
    simp only [List.foldl_cons]
    apply ih
    unfold openInsert
    split
    · exact alKeys_alSet_nodup _ _ _ h
    · exact h

theorem fold_url_key_invariant (tabs : List Tab) :
    ∀ (mp : List (String × Tab)), (∀ p ∈ mp, p.2.url = p.1) →
      ∀ p ∈ tabs.foldl openInsert mp, p.2.url = p.1 := by
  induction tabs with
  | nil => intro mp h p hp; exact h p (by simpa using hp)
  | cons u rest ih =>
    intro mp h p hp
    simp only [List.foldl_cons] at hp
    refine ih _ ?_ p hp
    intro q hq
    unfold openInsert at hq
    split at hq
    · rcases mem_alSet_cases _ _ _ _ hq with hq' | rfl
      · exact h q hq'
      · rfl
    · exact h q hq

theorem countP_key_eq_zero {β : Type} (mp : List (String × β)) (u : String)
    (h : u ∉ alKeys mp) :
    mp.countP (fun p => p.1 == u) = 0 := by
  apply List.countP_eq_zero.mpr
  intro p hp
  simp only [beq_iff_eq]
  intro he
  exact h (he ▸ List.mem_map.mpr ⟨p, hp, rfl⟩)

theorem countP_key_of_nodup {β : Type} (mp : List (String × β)) (u : String)
    (hnd : (alKeys mp).Nodup) (hmem : u ∈ alKeys mp) :
    mp.countP (fun p => p.1 == u) = 1 := by
  induction mp with
  | nil => simp [alKeys] at hmem
  | cons q rest ih =>
    have hkey : alKeys (q :: rest) = q.1 :: alKeys rest := rfl
    rw [hkey] at hnd hmem
    rcases List.nodup_cons.mp hnd with ⟨hq, hnd'⟩
    rw [List.countP_cons]
    rcases List.mem_cons.mp hmem with he' | hmem'
    · rw [countP_key_eq_zero rest u (by rw [he']; exact hq)]
      simp [he']
    · by_cases he : q.1 = u
      · exact absurd (he ▸ hmem') hq
      · rw [ih hnd' hmem']
        simp [he]

theorem countP_congr_local {α : Type} (l : List α) (p q : α → Bool)
    (h : ∀ a ∈ l, p a = q a) : l.countP p = l.countP q := by
  induction l with
  | nil => rfl
  | cons a rest ih =>
    rw [List.countP_cons, List.countP_cons, h a (List.mem_cons_self _ _),
      ih (fun b hb => h b (List.mem_cons_of_mem _ hb))]

/-- Claim C4 (amended): a URL that is both open (as an http(s) tab) and
present in the persisted mapping appears in the dashboard merge exactly
once, and every merged row carrying that URL is tagged logged.  (Two
persisted records sharing a URL that is not open each yield their own row;
see the counterexample.) -/
theorem dashboard_merge_open_logged_unique (loggedTabData : TabMap)
    (openTabs : List Tab) (now : Nat) (u : String) (t : Tab) (k : Nat)
    (r : TrackedTab) (htab : t ∈ openTabs) (hturl : t.url = u)
    (hhttp : isHttpUrl u = true) (hrec : (k, r) ∈ loggedTabData)
    (hrurl : r.url = u) :
    (loadTabLog loggedTabData openTabs now).countP (fun row => row.url == u)
        = 1
    ∧ ∀ row ∈ loadTabLog loggedTabData openTabs now,
        row.url = u → row.logged = true := by
  have hune : u ≠ "" := fun he => absurd (he ▸ hhttp) (by decide)
  have hmem : u ∈ alKeys (openTabsMapOf openTabs) := by
    have h := mem_alKeys_fold_intro openTabs [] t htab
      (by rw [hturl]; exact hhttp)
    rw [hturl] at h
    exact h
  have hnodup : (alKeys (openTabsMapOf openTabs)).Nodup := by
    unfold openTabsMapOf
    exact fold_keys_nodup openTabs [] (by simp [alKeys])
  have hinv : ∀ p ∈ openTabsMapOf openTabs, p.2.url = p.1 := by
    unfold openTabsMapOf
    exact fold_url_key_invariant openTabs [] (by intro p hp; cases hp)
  constructor
  · rw [loadTabLog, List.countP_append]
    have h1 : (dashOpenRows loggedTabData openTabs now).countP
        (fun row => row.url == u) = 1 := by
      rw [dashOpenRows, List.countP_map]
      have hcong : ∀ p ∈ openTabsMapOf openTabs,
          ((fun row => row.url == u) ∘ openRowOf loggedTabData now) p
            = (fun p : String × Tab => p.1 == u) p := by
        intro p hp
        have hru : (openRowOf loggedTabData now p).url = p.2.url := rfl
        simp only [Function.comp_apply, hru, hinv p hp]
      rw [countP_congr_local _ _ _ hcong]
      exact countP_key_of_nodup _ u hnodup hmem
    have h2 : (dashLoggedRows loggedTabData openTabs now).countP
        (fun row => row.url == u) = 0 := by
      apply List.countP_eq_zero.mpr
      intro row hrow
      rw [dashLoggedRows] at hrow
      obtain ⟨q, hq, hg⟩ := List.mem_filterMap.mp hrow
      by_cases hn : (alFind (openTabsMapOf openTabs) q.2.url).isNone
      · rw [if_pos hn] at hg
        injection hg with hg
        intro hbe
        have hru : row.url = q.2.url := by rw [← hg]
        have hqu : q.2.url = u := by rw [← hru]; simpa using hbe
        have hnone : alFind (openTabsMapOf openTabs) u = none := by
          rw [← hqu]
          exact Option.isNone_iff_eq_none.mp hn
        exact absurd hmem ((alFind_eq_none_iff _ _).mp hnone)
      · rw [if_neg hn] at hg
        exact Option.noConfusion hg
    rw [h1, h2]
  · intro row hrow hurl
    rw [loadTabLog, List.mem_append] at hrow
    rcases hrow with hrow | hrow
    · rw [dashOpenRows] at hrow
      obtain ⟨p, hp, hpr⟩ := List.mem_map.mp hrow
      have hru : (openRowOf loggedTabData now p).url = p.2.url := rfl
      have hp1 : p.1 = u := by
        rw [← hinv p hp, ← hru, hpr]
        exact hurl
      have hlogmem : u ∈ loggedUrlsOf loggedTabData := by
        rw [loggedUrlsOf, List.mem_filterMap]
        refine ⟨(k, r), hrec, ?_⟩
        simp [hrurl, hune]
      have hlg : (openRowOf loggedTabData now p).logged
          = (loggedUrlsOf loggedTabData).contains p.1 := rfl
      rw [← hpr, hlg, hp1]
      exact List.elem_eq_true_of_mem hlogmem
    · rw [dashLoggedRows] at hrow
      obtain ⟨q, hq, hg⟩ := List.mem_filterMap.mp hrow
      by_cases hn : (alFind (openTabsMapOf openTabs) q.2.url).isNone
      · rw [if_pos hn] at hg
        injection hg with hg
        rw [← hg]
      · rw [if_neg hn] at hg
        exact Option.noConfusion hg

/-- Persisted record for `tabA`'s URL; used as concrete test input. -/
def recA : TrackedTab :=
  { title := "A", url := "https://a.example/", createdAt := 10,
    lastUpdated := 10, favIconUrl := "" }

/-- Witness for C4: with `tabA` open and one persisted record for its URL,
the merge shows that URL exactly once and tags it logged. -/
theorem dashboard_merge_witness :
    (loadTabLog [(5, recA)] [tabA] 100).countP
        (fun row => row.url == "https://a.example/") = 1
    ∧ ∀ row ∈ loadTabLog [(5, recA)] [tabA] 100,
        row.url = "https://a.example/" → row.logged = true :=
  dashboard_merge_open_logged_unique [(5, recA)] [tabA] 100
    "https://a.example/" tabA 5 recA (by decide) (by decide) (by decide)
    (by decide) (by decide)

/-- Persisted record for a URL that is not open; used as concrete test
input. -/
def recX : TrackedTab :=
  { title := "X", url := "https://x.example/", createdAt := 10,
    lastUpdated := 10, favIconUrl := "" }

/-- Counterexample for C4 as stated: two persisted records sharing a URL
that is not currently open yield two rows with that URL, so "two persisted
records sharing the same URL never yield two rows" fails. -/
theorem dashboard_merge_counterexample :
    (loadTabLog [(1, recX), (2, recX)] [] 100).countP
        (fun row => row.url == "https://x.example/") = 2
    ∧ ¬ ((loadTabLog [(1, recX), (2, recX)] [] 100).countP
        (fun row => row.url == "https://x.example/") ≤ 1) := by
  exact ⟨by decide, by decide⟩
